import Mathlib

set_option autoImplicit false

/-!
Verification of the git-keys repository's discovery/reconciliation engine and
key-lifecycle saga, as a shallow embedding of the Go source.

Times (`time.Time`) are modelled as `Nat`; Go strings are Lean `String`s, and
the handful of `strings` package primitives the code uses are re-implemented
below on character lists so that all definitions evaluate.
External collaborators (key inspection, platform API, token storage, remote
deletion) are modelled as explicit oracle inputs, mirroring the exact points
where the Go code consults them.
-/

namespace GitKeys

/-! ## String primitives (models of Go's `strings` package functions) -/

/-- Model of Go `strings.HasPrefix`. -/
def hasPrefixS (s pre : String) : Bool := pre.data.isPrefixOf s.data

/-- Model of Go `strings.HasSuffix`. -/
def hasSuffixS (s suf : String) : Bool := suf.data.isSuffixOf s.data

def containsSubAux (pat : List Char) : List Char → Bool
  | [] => pat.isEmpty
  | c :: cs => pat.isPrefixOf (c :: cs) || containsSubAux pat cs

/-- Model of Go `strings.Contains`. -/
def containsSubS (s pat : String) : Bool := containsSubAux pat.data s.data

/-- Model of Go `strings.TrimPrefix`. -/
def trimPrefixS (s pre : String) : String :=
  if hasPrefixS s pre then ⟨s.data.drop pre.data.length⟩ else s

/-- Model of Go `strings.TrimSuffix`. -/
def trimSuffixS (s suf : String) : String :=
  if hasSuffixS s suf then ⟨s.data.take (s.data.length - suf.data.length)⟩ else s

def isSpaceChar (c : Char) : Bool := c = ' ' || c = '\t' || c = '\n' || c = '\r'

/-- Model of Go `strings.TrimSpace`. -/
def trimSpaceS (s : String) : String :=
  ⟨((s.data.dropWhile isSpaceChar).reverse.dropWhile isSpaceChar).reverse⟩

/-- Model of Go `strings.Trim` with a cutset of characters. -/
def trimCutS (s : String) (cut : List Char) : String :=
  ⟨((s.data.dropWhile (cut.contains ·)).reverse.dropWhile (cut.contains ·)).reverse⟩

def splitChars (c : Char) : List Char → List (List Char)
  | [] => [[]]
  | ch :: cs =>
    if ch = c then [] :: splitChars c cs
    else
      match splitChars c cs with
      | [] => [[ch]]
      | g :: gs => (ch :: g) :: gs

/-- Model of Go `strings.Split` with a one-character separator. -/
def splitOnCharS (s : String) (c : Char) : List String := (splitChars c s.data).map (⟨·⟩)

def fieldsAux : List Char → List Char → List (List Char)
  | cur, [] => if cur.isEmpty then [] else [cur.reverse]
  | cur, c :: cs =>
    if isSpaceChar c then
      if cur.isEmpty then fieldsAux [] cs else cur.reverse :: fieldsAux [] cs
    else fieldsAux (c :: cur) cs

/-- Model of Go `strings.Fields` (split around runs of whitespace). -/
def fieldsS (s : String) : List String := (fieldsAux [] s.data).map (⟨·⟩)

/-- Model of Go `strings.Join`. -/
def joinWithS : List String → String → String
  | [], _ => ""
  | [x], _ => x
  | x :: y :: rest, sep => x ++ sep ++ joinWithS (y :: rest) sep

/-! ## Data model (`internal/config/models.go`) -/

/-- `config.KeyConfig` (models.go:48): a managed SSH key.  `KeyType` and
`KeyStatus` are Go string types, kept as `String` here. -/
structure KeyConfig where
  type : String
  createdAt : Nat
  expiresAt : Nat
  fingerprint : String
  localPath : String
  remoteID : String
  status : String
  deriving DecidableEq, Repr

/-- `config.Platform` (models.go:32). -/
structure Platform where
  type : String
  account : String
  baseURL : String
  keys : List KeyConfig
  deriving DecidableEq, Repr

/-- `config.Persona` (models.go:25). -/
structure Persona where
  name : String
  email : String
  platforms : List Platform
  deriving DecidableEq, Repr

/-- `config.Defaults` (models.go:77); `KeyExpiration` is kept in hours. -/
structure Defaults where
  keyType : String
  keyExpirationHours : Nat
  sshConfigPath : String
  deriving DecidableEq, Repr

/-- `config.Config` (models.go:9); the machine sub-record is collapsed to its
id, the only field any modelled operation reads. -/
structure Config where
  version : String
  machineID : String
  personas : List Persona
  defaults : Defaults
  deriving DecidableEq, Repr

/-- `(*Platform).GetActiveKey` (models.go:131-139): first key in list order
whose status is exactly "active", `nil` (here `none`) otherwise. -/
def Platform.GetActiveKey (p : Platform) : Option KeyConfig :=
  p.keys.find? (fun k => k.status == "active")

/-! ## Rotation target collection (`runRotate`, keychain.go:544-573) -/

/-- `keyRotation` (keychain.go:645-656), minus the mutable `NewKey` slot,
which the saga model below threads explicitly. -/
structure KeyRotation where
  personaName : String
  personaIdx : Nat
  platformType : String
  platformIdx : Nat
  keyIdx : Nat
  account : String
  baseURL : String
  oldKey : KeyConfig
  machineName : String
  deriving DecidableEq, Repr

/-- The target-collection loop of `runRotate` (keychain.go:544-573): every
key whose status is "active" in a persona/platform passing the filters
becomes one rotation entry. -/
def collectRotations (cfg : Config) (targetPersona targetPlatform machineName : String) :
    List KeyRotation :=
  cfg.personas.enum.flatMap fun pp =>
    if targetPersona ≠ "" ∧ pp.2.name ≠ targetPersona then []
    else
      pp.2.platforms.enum.flatMap fun lp =>
        if targetPlatform ≠ "" ∧ lp.2.type ≠ targetPlatform then []
        else
          lp.2.keys.enum.flatMap fun kk =>
            if kk.2.status ≠ "active" then []
            else [⟨pp.2.name, pp.1, lp.2.type, lp.1, kk.1, lp.2.account, lp.2.baseURL,
                   kk.2, machineName⟩]

/-- All keys with status "active", in persona/platform/key list order. -/
def activeKeysOf (cfg : Config) : List KeyConfig :=
  cfg.personas.flatMap fun pe =>
    pe.platforms.flatMap fun pl => pl.keys.filter (fun k => k.status == "active")

/-- Rewrite every key's expiry timestamp of a platform. -/
def Platform.withExpiries (p : Platform) (f : KeyConfig → Nat) : Platform :=
  { p with keys := p.keys.map (fun k => { k with expiresAt := f k }) }

/-! ## Scan snapshot entities (`internal/commands/scan.go`) -/

/-- `DiscoveredPlatform` (scan.go:70-75). -/
structure DiscoveredPlatform where
  type : String
  baseURL : String
  repoCount : Nat
  groups : List String
  deriving DecidableEq, Repr

/-- `GitInclude` (scan.go:62-68). -/
structure GitInclude where
  path : String
  condition : String
  name : String
  email : String
  discoveredPlatforms : List DiscoveredPlatform
  deriving DecidableEq, Repr

/-- `GitConfig` (scan.go:56-60). -/
structure GitConfig where
  globalName : String
  globalEmail : String
  includes : List GitInclude
  deriving DecidableEq, Repr

/-- `SSHConfigHost` (scan.go:49-54). -/
structure SSHConfigHost where
  host : String
  hostName : String
  identityFile : String
  user : String
  deriving DecidableEq, Repr

/-- `DiscoveredKey` (scan.go:29-40). -/
structure DiscoveredKey where
  path : String
  type : String
  bits : Nat
  fingerprint : String
  comment : String
  created : Nat
  usedBy : List String
  inAgent : Bool
  onGitHub : Bool
  onGitLab : Bool
  deriving DecidableEq, Repr

/-- `ScanResult` (scan.go:43-47). -/
structure ScanResult where
  keys : List DiscoveredKey
  sshConfigHosts : List SSHConfigHost
  gitConfig : GitConfig
  deriving DecidableEq, Repr

/-! ## Recommendation engine (`analyzeAndRecommend`, status.go:594-731) -/

/-- `RecommendedPlatform` (status.go:312-317). -/
structure RecommendedPlatform where
  type : String
  account : String
  baseURL : String
  keyPath : String
  deriving DecidableEq, Repr

/-- `RecommendedPersona` (status.go:305-309). -/
structure RecommendedPersona where
  name : String
  email : String
  platforms : List RecommendedPlatform
  deriving DecidableEq, Repr

/-- `RecommendedMap` (status.go:300-302). -/
structure RecommendedMap where
  personas : List RecommendedPersona
  deriving DecidableEq, Repr

/-- The Go `map[string]*RecommendedPersona` keyed by email, modelled as an
association list in insertion order (keys are unique by construction; Go's
random iteration order is fixed to insertion order here). -/
abbrev EmailMap := List (String × RecommendedPersona)

/-- First-match association lookup (Go map indexing). -/
def lookupRP : EmailMap → String → Option RecommendedPersona
  | [], _ => none
  | (k, v) :: rest, key => if k = key then some v else lookupRP rest key

/-- In-place update of the entry at a key (Go mutates through the stored
pointer); keys are unique so only the first match matters. -/
def updateRP : EmailMap → String → (RecommendedPersona → RecommendedPersona) → EmailMap
  | [], _, _ => []
  | (k, v) :: rest, key, f =>
    if k = key then (k, f v) :: rest else (k, v) :: updateRP rest key f

/-- Persona-name inference for a conditional include (status.go:653-669). -/
def inferPersonaName (inc : GitInclude) : String :=
  if inc.name ≠ "" then inc.name
  else if containsSubS inc.condition "work" then "work"
  else if containsSubS inc.condition "personal" then "personal"
  else
    let parts := splitOnCharS (trimCutS inc.condition ['~', '/']) '/'
    match parts.getLast? with
    | some last => last
    | none => inc.name

/-- Steps 1-2 of the inference branch (status.go:629-690): seed a "personal"
persona from the global email, then one persona per conditional include with
a fresh non-empty email, carrying the include's discovered platforms with a
blank account. -/
def step12Map (scan : ScanResult) : EmailMap :=
  let m0 : EmailMap :=
    if scan.gitConfig.globalEmail ≠ "" then
      [(scan.gitConfig.globalEmail,
        ⟨"personal", scan.gitConfig.globalEmail, []⟩)]
    else []
  scan.gitConfig.includes.foldl (fun m inc =>
    if inc.email = "" then m
    else if (lookupRP m inc.email).isSome then m
    else
      m ++ [(inc.email,
        ⟨inferPersonaName inc, inc.email,
         inc.discoveredPlatforms.map (fun d => ⟨d.type, "", d.baseURL, ""⟩)⟩)]) m0

/-- The guard of the routing-entry pass (status.go:694): note both sides are
exact string equalities in the source. -/
def hostEntryMatches (h : SSHConfigHost) : Bool :=
  h.hostName == "github.com" || h.hostName == "gitlab.com"

/-- The platform attached for a matching routing entry (status.go:695-719):
github unless the hostname contains "gitlab", placeholder account
"username", key path from the entry's identity file. -/
def hostEntryPlatform (h : SSHConfigHost) : RecommendedPlatform :=
  ⟨if containsSubS h.hostName "gitlab" then "gitlab" else "github",
   "username", "", h.identityFile⟩

/-- The target-persona selection of one step-3 iteration (status.go:703-712):
the global-email persona when a global email is set, else whichever entry of
the working map Go's randomized map iteration yields first, supplied here as
the explicit choice `pick` (`none` models the empty map, whose iteration
body never runs). -/
def step3Target (pick : EmailMap → Option String) (ge : String) (m : EmailMap) :
    Option String :=
  if ge ≠ "" then
    if (lookupRP m ge).isSome then some ge else none
  else pick m

/-- One iteration of the routing-entry loop of step 3 (status.go:693-723):
for a matching entry, append its placeholder platform to the target persona,
when one exists. -/
def step3Step (pick : EmailMap → Option String) (ge : String) (m : EmailMap)
    (h : SSHConfigHost) : EmailMap :=
  if hostEntryMatches h then
    match step3Target pick ge m with
    | none => m
    | some key =>
      updateRP m key (fun p => { p with platforms := p.platforms ++ [hostEntryPlatform h] })
  else m

/-- Step 3 of the inference branch (status.go:692-723), parametrised by the
global email and by the arbitrary-element choice `pick` (Go's map iteration
order is unspecified; theorems quantify over every admissible choice). -/
def step3FoldWith (pick : EmailMap → Option String) (ge : String)
    (hosts : List SSHConfigHost) (m : EmailMap) : EmailMap :=
  hosts.foldl (step3Step pick ge) m

/-- `analyzeAndRecommend` (status.go:594-731), parametrised by the
arbitrary-element choice used by the no-global-email fallback of step 3. -/
def analyzeAndRecommendWith (pick : EmailMap → Option String) (scan : ScanResult)
    (existing : Option Config) : RecommendedMap :=
  match existing with
  | some cfg =>
    ⟨cfg.personas.map (fun pe =>
      ⟨pe.name, pe.email,
       pe.platforms.map (fun pl =>
         ⟨pl.type, pl.account, pl.baseURL,
          match pl.GetActiveKey with
          | some k => k.localPath
          | none => ""⟩)⟩)⟩
  | none =>
    ⟨(step3FoldWith pick scan.gitConfig.globalEmail scan.sshConfigHosts
        (step12Map scan)).map (·.2)⟩

/-- `analyzeAndRecommend` (status.go:594-731) at one concrete admissible
choice (the first entry in insertion order); the declared branch and the
global-email path never consult the choice. -/
def analyzeAndRecommend (scan : ScanResult) (existing : Option Config) : RecommendedMap :=
  analyzeAndRecommendWith (fun m => m.head?.map (·.1)) scan existing

/-- Modelled from the spec (section 4.2, declared branch): the verbatim
projection of a declared config — persona names and emails, platform type,
account and base URL, and the active key's local path when one exists.
Written from the spec's words, to be compared with `analyzeAndRecommend`. -/
def declaredProjection (cfg : Config) : RecommendedMap :=
  ⟨cfg.personas.map (fun pe =>
    ⟨pe.name, pe.email,
     pe.platforms.map (fun pl =>
       ⟨pl.type, pl.account, pl.baseURL, ((pl.GetActiveKey).map (·.localPath)).getD ""⟩)⟩)⟩

/-! ## Key-directory scanner (`scanSSHKeys`, scan.go:150-241) -/

/-- One entry of the key directory, together with the outcomes of the
filesystem and key-inspection collaborator calls the scanner makes for it:
whether `os.Stat(path + ".pub")` succeeds, what `GetFingerprint` and
`GetPublicKey` return (`none` = error), the bit-size probe used for
non-ed25519 keys (scan.go:250-264), and the file's modification time. -/
structure DirEntry where
  name : String
  isDir : Bool
  hasPubSibling : Bool
  fingerprintRes : Option String
  publicKeyRes : Option String
  bitsProbe : Nat
  modTime : Nat
  deriving DecidableEq, Repr

/-- The skip list of `scanSSHKeys` (scan.go:170-177). -/
def isExcludedName (name : String) : Bool :=
  hasSuffixS name ".pub" || name == "known_hosts" || name == "known_hosts.old" ||
  name == "config" || name == "authorized_keys" || hasPrefixS name "."

/-- `getKeyBits` (scan.go:243-265): 256 for the ed25519 family, otherwise the
collaborator probe (which yields 0 on failure). -/
def getKeyBits (keyType : String) (probe : Nat) : Nat :=
  if containsSubS keyType "ed25519" then 256 else probe

/-- The per-entry body of `scanSSHKeys` (scan.go:160-233): `none` exactly when
the entry is skipped (directory, excluded name, missing `.pub` sibling, or a
key-inspection failure — the latter silently). -/
def entryToKey (sshDir : String) (e : DirEntry) : Option DiscoveredKey :=
  if e.isDir then none
  else if isExcludedName e.name then none
  else if !e.hasPubSibling then none
  else
    match e.fingerprintRes with
    | none => none
    | some fingerprint =>
      match e.publicKeyRes with
      | none => none
      | some pubKey =>
        let parts := fieldsS pubKey
        let keyType := match parts.head? with
                       | some t => t
                       | none => "unknown"
        let comment := if parts.length ≥ 3 then joinWithS (parts.drop 2) " " else ""
        some ⟨sshDir ++ "/" ++ e.name, keyType, getKeyBits keyType e.bitsProbe,
              fingerprint, comment, e.modTime, [], false, false, false⟩

/-- A directory entry that survives every filter of `scanSSHKeys` — a valid
key pair. -/
def isValidKeyPair (e : DirEntry) : Bool :=
  !e.isDir && !isExcludedName e.name && e.hasPubSibling &&
  e.fingerprintRes.isSome && e.publicKeyRes.isSome

/-- Newest-first comparison used by the final `sort.Slice` (scan.go:236-238):
the sort keeps `a` before `b` when `b.created ≤ a.created`. -/
def newerFirst (a b : DiscoveredKey) : Prop := b.created ≤ a.created

instance : DecidableRel newerFirst := fun _ _ => Nat.decLe _ _

instance : IsTotal DiscoveredKey newerFirst :=
  ⟨fun a b => Nat.le_total b.created a.created⟩

instance : IsTrans DiscoveredKey newerFirst :=
  ⟨fun _ _ _ hab hbc => Nat.le_trans hbc hab⟩

/-- `scanSSHKeys` (scan.go:150-241): filter the directory entries down to
valid key pairs, then sort newest-first by modification time.  The sort is
modelled by insertion sort, which realises `sort.Slice`'s guarantee (a sorted
permutation). -/
def scanSSHKeys (sshDir : String) (entries : List DirEntry) : List DiscoveredKey :=
  (entries.filterMap (entryToKey sshDir)).insertionSort newerFirst

/-! ## Repository platform discovery (`discoverPlatformsInDirectory`,
scan.go:438-531, and `parseGitRemoteURL`, scan.go:545-605) -/

/-- `parseGitRemoteURL` (scan.go:545-605).  Returns (platform type, base URL,
group); all empty when the URL is not recognised, exactly as the Go function
returns `"", "", ""`. -/
def parseGitRemoteURL (url0 : String) : String × String × String :=
  let url := trimSpaceS url0
  let hg : String × String :=
    if hasPrefixS url "git@" || hasPrefixS url "ssh://" then
      let u := trimPrefixS (trimPrefixS url "ssh://") "git@"
      if containsSubS u ":" then
        let parts := splitOnCharS u ':'
        match parts with
        | p0 :: p1 :: _ =>
          let pathParts := splitOnCharS p1 '/'
          (p0, match pathParts.head? with
               | some g => g
               | none => "")
        | _ => ("", "")
      else ("", "")
    else if hasPrefixS url "http://" || hasPrefixS url "https://" then
      let u := trimPrefixS (trimPrefixS url "https://") "http://"
      match splitOnCharS u '/' with
      | p0 :: p1 :: _ => (p0, p1)
      | _ => ("", "")
    else ("", "")
  let hostname := hg.1
  let group := hg.2
  if hostname = "" then ("", "", "")
  else if containsSubS hostname "github.com" then ("github", "", group)
  else if containsSubS hostname "gitlab" then
    ("gitlab", if hostname ≠ "gitlab.com" then "https://" ++ hostname else "", group)
  else ("", "", "")

/-- The deduplication map `map[string]*DiscoveredPlatform` keyed by
`"type:baseURL"` (scan.go:453,496), as an association list in insertion
order. -/
abbrev PlatformMap := List (String × DiscoveredPlatform)

/-- The per-remote-URL update of the map (scan.go:495-514): an existing entry
gets its repo count bumped and the group accumulated when new; otherwise a
fresh entry with count 1 is inserted. -/
def updatePlatformMap (m : PlatformMap) (t b g : String) : PlatformMap :=
  let key := t ++ ":" ++ b
  match lookupDP m key with
  | some _ =>
    updateDP m key (fun p =>
      { p with repoCount := p.repoCount + 1,
               groups := if g ≠ "" ∧ ¬ (p.groups.contains g) then p.groups ++ [g]
                         else p.groups })
  | none =>
    m ++ [(key, ⟨t, b, 1, if g ≠ "" then [g] else []⟩)]
where
  lookupDP : PlatformMap → String → Option DiscoveredPlatform
    | [], _ => none
    | (k, v) :: rest, key => if k = key then some v else lookupDP rest key
  updateDP : PlatformMap → String → (DiscoveredPlatform → DiscoveredPlatform) → PlatformMap
    | [], _, _ => []
    | (k, v) :: rest, key, f =>
      if k = key then (k, f v) :: rest else (k, v) :: updateDP rest key f

/-- The walk body of `discoverPlatformsInDirectory` (scan.go:484-515) over
the sequence of remote URLs the repository walk encounters, followed by the
map-to-slice conversion (scan.go:524-528). -/
def discoverPlatformsInDirectory (urls : List String) : List DiscoveredPlatform :=
  (urls.foldl (fun m url =>
    let tbg := parseGitRemoteURL url
    if tbg.1 = "" then m
    else updatePlatformMap m tbg.1 tbg.2.1 tbg.2.2) []).map (·.2)

/-! ## SSH routing config upsert (`sshconfig`, unnamed part_001) -/

/-- `managedBlockStart` (part_001:14). -/
def managedBlockStart : String := "# BEGIN git-keys managed block -"

/-- `managedBlockEnd` (part_001:15). -/
def managedBlockEnd : String := "# END git-keys managed block"

/-- `sshconfig.Entry` (part_001:33-39); the `Extra` map is an association
list in a fixed order (Go iterates it in unspecified order). -/
structure SSHEntry where
  host : String
  hostName : String
  user : String
  identityFile : String
  extra : List (String × String)
  deriving DecidableEq, Repr

/-- The begin-marker for a block id (part_001:98). -/
def startMarkerFor (blockID : String) : String := managedBlockStart ++ " " ++ blockID

/-- Whether a line opens the managed block for `blockID` — note the source
tests only a prefix of the trimmed line (part_001:105). -/
def isBeginLineFor (blockID line : String) : Bool :=
  hasPrefixS (trimSpaceS line) (startMarkerFor blockID)

/-- Whether a line is an end-of-block marker (part_001:110). -/
def isEndLine (line : String) : Bool :=
  hasPrefixS (trimSpaceS line) managedBlockEnd

/-- The line-scanning loop of `removeManagedBlock` (part_001:97-121), with
its `inBlock` flag made explicit. -/
def removeBlockAux (blockID : String) : Bool → List String → List String
  | _, [] => []
  | inBlock, l :: ls =>
    if isBeginLineFor blockID l then removeBlockAux blockID true ls
    else if inBlock && isEndLine l then removeBlockAux blockID false ls
    else if inBlock then removeBlockAux blockID true ls
    else l :: removeBlockAux blockID false ls

/-- `removeManagedBlock` (part_001:97-121). -/
def removeManagedBlock (lines : List String) (blockID : String) : List String :=
  removeBlockAux blockID false lines

/-- The per-entry lines of `buildManagedBlock` (part_001:130-145). -/
def entryLines (e : SSHEntry) : List String :=
  ["Host " ++ e.host]
  ++ (if e.hostName ≠ "" then ["  HostName " ++ e.hostName] else [])
  ++ (if e.user ≠ "" then ["  User " ++ e.user] else [])
  ++ (if e.identityFile ≠ "" then ["  IdentityFile " ++ e.identityFile] else [])
  ++ e.extra.map (fun kv => "  " ++ kv.1 ++ " " ++ kv.2)
  ++ [""]

/-- `buildManagedBlock` (part_001:124-151). -/
def buildManagedBlock (blockID : String) (entries : List SSHEntry) : List String :=
  [""] ++ [startMarkerFor blockID] ++ entries.flatMap entryLines ++ [managedBlockEnd, ""]

/-- `AddOrUpdateEntry` (part_001:68-94), at the level of the line list the Go
code obtains by splitting the file on newlines: remove the named managed
block and append the freshly built block at the end of the file. -/
def AddOrUpdateEntry (lines : List String) (blockID : String) (entries : List SSHEntry) :
    List String :=
  removeManagedBlock lines blockID ++ buildManagedBlock blockID entries

/-! ## Token storage (`api.TokenManager`, consumed at keychain.go:794-801 and
status.go:1277-1285) -/

/-- The OS credential store: entries keyed by (service, account). -/
abbrev TokenStore := List ((String × String) × String)

/-- `TokenManager.GetToken` outcome for a service/account pair. -/
def getTokenL : TokenStore → String → String → Option String
  | [], _, _ => none
  | ((s, a), t) :: rest, svc, acct =>
    if s = svc ∧ a = acct then some t else getTokenL rest svc acct

/-- The service-name dispatch on the platform type (keychain.go:785-792,
status.go:1268-1275); `none` for an unsupported platform. -/
def tokenServiceFor (platformType : String) : Option String :=
  if platformType = "github" then some "git-keys-github"
  else if platformType = "gitlab" then some "git-keys-gitlab"
  else none

/-- The two-step token resolution used by upload, delete and revoke
(keychain.go:795-801): the account-scoped token first, then the token for
the literal account "default". -/
def resolveToken (store : TokenStore) (svc acct : String) : Option String :=
  match getTokenL store svc acct with
  | some t => some t
  | none => getTokenL store svc "default"

/-! ## Rotation saga (`rotateKey` and helpers, keychain.go:658-885) -/

/-- `uploadKey` (keychain.go:783-823).  `addKey` is the platform-API
collaborator: given the resolved token and the public key it returns the new
remote id, or `none` on failure. -/
def uploadKeyModel (store : TokenStore) (addKey : String → String → Option String)
    (rot : KeyRotation) (publicKey : String) : Except String String :=
  match tokenServiceFor rot.platformType with
  | none => .error "unsupported platform"
  | some svc =>
    match resolveToken store svc rot.account with
    | none => .error "no API token found"
    | some token =>
      match addKey token publicKey with
      | some remoteID => .ok remoteID
      | none => .error "failed to upload key"

/-- The collaborator outcomes for one `rotateKey` run, in the order the
source consults them. -/
structure RotateEnv where
  generateOk : Bool
  fingerprintRes : Option String
  publicKeyRes : Option String
  tokens : TokenStore
  addKey : String → String → Option String
  sshConfigOk : Bool
  validateOk : Bool
  remoteDeleteOk : Bool
  archiveOk : Bool
  renameOk : Bool

/-- Observable side effects of one `rotateKey` run. -/
structure RotateEffects where
  ok : Bool
  newKeyGenerated : Bool
  tempFilesDeleted : Bool
  uploadedRemoteID : Option String
  compensatedRemoteKey : Bool
  routingReferencesNewKey : Bool
  deriving DecidableEq, Repr

def modifyAt {α : Type} : List α → Nat → (α → α) → List α
  | [], _, _ => []
  | x :: xs, 0, f => f x :: xs
  | x :: xs, n + 1, f => x :: modifyAt xs n f

/-- Replace the key at (personaIdx, platformIdx, keyIdx), as
`cfg.Personas[rot.PersonaIdx].Platforms[rot.PlatformIdx].Keys[rot.KeyIdx] =
*rot.NewKey` does (keychain.go:778). -/
def Config.setKeyAt (cfg : Config) (pi pli ki : Nat) (k : KeyConfig) : Config :=
  { cfg with personas := modifyAt cfg.personas pi (fun pe =>
      { pe with platforms := modifyAt pe.platforms pli (fun pl =>
          { pl with keys := modifyAt pl.keys ki (fun _ => k) }) }) }

/-- `rotateKey` (keychain.go:658-781).  In the model a month of expiry is
720 hours.  The deferred cleanup (keychain.go:687-692) deletes the freshly
generated temporary key files exactly when `rot.NewKey` is still nil, and
`rot.NewKey` is assigned right after the upload succeeds
(keychain.go:713-721) — before the step-3 routing update. -/
def rotateKeyModel (cfg : Config) (env : RotateEnv) (rot : KeyRotation) (now : Nat) :
    Config × RotateEffects :=
  let keyType := if cfg.defaults.keyType = "" then "ed25519" else cfg.defaults.keyType
  let expiryMonths :=
    if cfg.defaults.keyExpirationHours > 0 then cfg.defaults.keyExpirationHours / 24 / 30
    else 6
  let keyFileName := "git-keys-" ++ rot.platformType ++ "-" ++ rot.account ++ "-" ++ keyType
  let newKeyPath := keyFileName ++ "-new"
  if !env.generateOk then
    (cfg, ⟨false, false, false, none, false, false⟩)
  else
    match env.fingerprintRes with
    | none => (cfg, ⟨false, true, true, none, false, false⟩)
    | some fingerprint =>
      match env.publicKeyRes with
      | none => (cfg, ⟨false, true, true, none, false, false⟩)
      | some publicKey =>
        match uploadKeyModel env.tokens env.addKey rot publicKey with
        | .error _ => (cfg, ⟨false, true, true, none, false, false⟩)
        | .ok remoteID =>
          let newKey : KeyConfig :=
            ⟨keyType, now, now + expiryMonths * 720, fingerprint, newKeyPath,
             remoteID, "active"⟩
          if !env.sshConfigOk then
            (cfg, ⟨false, true, false, some remoteID, true, false⟩)
          else
            let newKey :=
              if env.renameOk then { newKey with localPath := keyFileName } else newKey
            (cfg.setKeyAt rot.personaIdx rot.platformIdx rot.keyIdx newKey,
             ⟨true, true, false, some remoteID, false, true⟩)

/-- Whether the chain generate → fingerprint → public key → upload → routing
all succeed for this environment/pair, i.e. `rotateKey` returns nil. -/
def envSucceeds (env : RotateEnv) (rot : KeyRotation) : Bool :=
  env.generateOk && env.fingerprintRes.isSome &&
  (match env.publicKeyRes with
   | none => false
   | some pk =>
     match tokenServiceFor rot.platformType with
     | none => false
     | some svc =>
       match resolveToken env.tokens svc rot.account with
       | none => false
       | some tok => (env.addKey tok pk).isSome) &&
  env.sshConfigOk

/-- Result of the processing loop of `runRotate` (keychain.go:609-642). -/
structure RotateRun where
  finalConfig : Config
  successful : Nat
  failed : Nat
  effects : List RotateEffects
  savedConfigs : List Config

/-- The processing loop and single trailing save of `runRotate`
(keychain.go:613-633): each pair is rotated in turn, a failure only bumps
the failure counter and moves on, and the configuration is saved once at the
end when at least one pair succeeded. -/
def runRotateProcess (cfg0 : Config) (pairs : List (KeyRotation × RotateEnv)) (now : Nat) :
    RotateRun :=
  let fin := pairs.foldl (fun (acc : Config × Nat × Nat × List RotateEffects) pe =>
    let res := rotateKeyModel acc.1 pe.2 pe.1 now
    if res.2.ok then (res.1, acc.2.1 + 1, acc.2.2.1, acc.2.2.2 ++ [res.2])
    else (res.1, acc.2.1, acc.2.2.1 + 1, acc.2.2.2 ++ [res.2])) (cfg0, 0, 0, [])
  ⟨fin.1, fin.2.1, fin.2.2.1, fin.2.2.2, if fin.2.1 > 0 then [fin.1] else []⟩

/-! ## Revocation (`runRevoke` / `revokeKey` / `revokeByFingerprint`,
status.go:1104-1379) -/

/-- `keyRevocation` (status.go:1251-1259); `Key` is a struct copy of the
selected `config.KeyConfig`, exactly as in the source.  The two pointer
fields `PersonaRef`/`PlatformRef` are omitted: `runRevoke` never reads them,
and the one use in `revokeByFingerprint` is modelled by the indexed update
below. -/
structure KeyRevocation where
  persona : String
  platform : String
  account : String
  baseURL : String
  key : KeyConfig
  deriving DecidableEq, Repr

/-- The target-collection loop of `runRevoke` (status.go:1146-1173): keys of
personas/platforms passing the filters, excluding keys already revoked. -/
def collectRevocations (cfg : Config) (targetPersona targetPlatform : String) :
    List KeyRevocation :=
  cfg.personas.flatMap fun pe =>
    if targetPersona ≠ "" ∧ pe.name ≠ targetPersona then []
    else
      pe.platforms.flatMap fun pl =>
        if targetPlatform ≠ "" ∧ pl.type ≠ targetPlatform then []
        else
          pl.keys.flatMap fun k =>
            if k.status = "revoked" then []
            else [⟨pe.name, pl.type, pl.account, pl.baseURL, k⟩]

/-- `revokeKey` (status.go:1261-1305): immediate success when there is no
remote id; otherwise resolve a token (account, then "default") for the
platform's service and call the platform API's DeleteKey, whose outcome the
`deleteOk` oracle gives per remote id. -/
def revokeKeyModel (store : TokenStore) (deleteOk : String → Bool)
    (kr : KeyRevocation) : Bool :=
  if kr.key.remoteID = "" then true
  else
    match tokenServiceFor kr.platform with
    | none => false
    | some svc =>
      match resolveToken store svc kr.account with
      | none => false
      | some _ => deleteOk kr.key.remoteID

/-- Outcome of the `runRevoke` command (post-confirmation). -/
structure RevokeRun where
  processed : List (KeyRevocation × Bool)
  savedConfigs : List Config
  deriving DecidableEq, Repr

/-- The processing and save of `runRevoke` (status.go:1204-1241): each
successful revocation sets `kr.Key.Status = revoked` on the struct copy held
in the `keysToRevoke` slice (status.go:1215) — the loaded `cfg` is never
written — and `mgr.Save(cfg)` then persists that untouched `cfg`
(status.go:1239).  When nothing was selected the command returns before
saving (status.go:1175-1178). -/
def runRevokeModel (cfg : Config) (store : TokenStore) (deleteOk : String → Bool)
    (targetPersona targetPlatform : String) : RevokeRun :=
  let krs := collectRevocations cfg targetPersona targetPlatform
  if krs.isEmpty then ⟨[], []⟩
  else
    let processed := krs.map (fun kr =>
      if revokeKeyModel store deleteOk kr then
        ({ kr with key := { kr.key with status := "revoked" } }, true)
      else (kr, false))
    ⟨processed, [cfg]⟩

/-- The triple search loop of `revokeByFingerprint` (status.go:1313-1337):
first key anywhere whose prefix-normalized fingerprint equals the normalized
argument, with the indices of its persona and platform. -/
def findRevocation (cfg : Config) (nfp : String) : Option (Nat × Nat × KeyRevocation) :=
  (cfg.personas.enum.flatMap fun pp =>
    pp.2.platforms.enum.flatMap fun lp =>
      match lp.2.keys.find? (fun k => trimPrefixS k.fingerprint "SHA256:" == nfp) with
      | some k => [(pp.1, lp.1,
          (⟨pp.2.name, lp.2.type, lp.2.account, lp.2.baseURL, k⟩ : KeyRevocation))]
      | none => []).head?

/-- The write-through status update of `revokeByFingerprint`
(status.go:1364-1369): mark the first key with this exact fingerprint. -/
def markFirstFingerprint : List KeyConfig → String → List KeyConfig
  | [], _ => []
  | k :: ks, fp =>
    if k.fingerprint = fp then { k with status := "revoked" } :: ks
    else k :: markFirstFingerprint ks fp

/-- Outcome of `revokeByFingerprint`: the error (if any) and the configs
written to disk (empty = the persisted file is untouched). -/
structure FPRevokeRun where
  errorMsg : Option String
  savedConfigs : List Config
  deriving DecidableEq, Repr

/-- `revokeByFingerprint` (status.go:1307-1379), post-confirmation: on a
missing fingerprint the function returns the "no key found" error before any
write; on success it updates the found platform's key through the shared
slice and saves once. -/
def revokeByFingerprintModel (cfg : Config) (store : TokenStore)
    (deleteOk : String → Bool) (fingerprint : String) : FPRevokeRun :=
  let nfp := trimPrefixS fingerprint "SHA256:"
  match findRevocation cfg nfp with
  | none => ⟨some ("no key found with fingerprint: " ++ nfp), []⟩
  | some pk =>
    if revokeKeyModel store deleteOk pk.2.2 then
      let cfg' := { cfg with personas := modifyAt cfg.personas pk.1 (fun pe =>
        { pe with platforms := modifyAt pe.platforms pk.2.1 (fun pl =>
          { pl with keys := markFirstFingerprint pl.keys pk.2.2.key.fingerprint }) }) }
      ⟨none, [cfg']⟩
    else ⟨some "failed to revoke key", []⟩

/-! ## Concrete sample inputs used by counterexamples and witnesses -/

/-- Two keys both marked "active" under one platform. -/
def twoActiveCfg : Config :=
  ⟨"1.0", "mach",
   [⟨"personal", "p@example.com",
     [⟨"github", "alice", "",
       [⟨"ed25519", 0, 100, "FP1", "key1", "11", "active"⟩,
        ⟨"ed25519", 5, 100, "FP2", "key2", "12", "active"⟩]⟩]⟩],
   ⟨"ed25519", 0, ""⟩⟩

/-- A routing entry whose hostname contains "gitlab" but is not exactly
"gitlab.com". -/
def corpGitlabScan : ScanResult :=
  ⟨[], [⟨"corp", "gitlab.corp.example", "/home/u/.ssh/id_corp", "git"⟩],
   ⟨"Ann", "ann@example.com", []⟩⟩

/-- A scan with a global email and three routing entries: canonical github,
an unrelated host, and canonical gitlab. -/
def ghGlScan : ScanResult :=
  ⟨[],
   [⟨"gh", "github.com", "/home/u/.ssh/idA", "git"⟩,
    ⟨"x", "example.com", "/home/u/.ssh/idB", "git"⟩,
    ⟨"gl", "gitlab.com", "/home/u/.ssh/idC", "git"⟩],
   ⟨"Gus", "g@x.io", []⟩⟩

/-- One active key with a remote registration id. -/
def oneRemoteKeyCfg : Config :=
  ⟨"1.0", "mach",
   [⟨"personal", "p@example.com",
     [⟨"github", "alice", "",
       [⟨"ed25519", 0, 100, "FPR1", "key1", "42", "active"⟩]⟩]⟩],
   ⟨"ed25519", 0, ""⟩⟩

/-- Token store holding an account-scoped github token for alice. -/
def aliceStore : TokenStore := [(("git-keys-github", "alice"), "tok-a")]

/-- A rotation pair for `oneRemoteKeyCfg`'s single key. -/
def aliceRotation : KeyRotation :=
  ⟨"personal", 0, "github", 0, 0, "alice", "",
   ⟨"ed25519", 0, 100, "FPR1", "key1", "42", "active"⟩, "mach"⟩

/-- Collaborator outcomes where everything up to the upload succeeds and the
step-3 routing update fails. -/
def step3FailEnv : RotateEnv :=
  ⟨true, some "NEWFP", some "ssh-ed25519 AAAA gen", aliceStore,
   fun _ _ => some "99", false, true, true, true, true⟩

/-- A file holding a managed block whose id extends "a". -/
def prefixCollisionLines : List String :=
  ["Host keep", "# BEGIN git-keys managed block - ab", "Host inner",
   "# END git-keys managed block", "Host keep2"]

/-- A file prefix containing free lines and a managed block for an unrelated
block id. -/
def outsidePrefixLines : List String :=
  ["Host pre", "# BEGIN git-keys managed block - other", "Host o",
   "# END git-keys managed block"]

/-- A scan with no global email: the working set is seeded only by the
conditional include. -/
def emptyEmailScan : ScanResult :=
  ⟨[], [⟨"gh", "github.com", "/home/u/.ssh/idA", "git"⟩],
   ⟨"", "", [⟨"/p", "~/work", "w", "w@corp.io", []⟩]⟩⟩

/-- A small key directory: two valid pairs and two non-key files. -/
def sampleDirEntries : List DirEntry :=
  [⟨"id_ed25519", false, true, some "F1", some "ssh-ed25519 AAA me@host", 0, 50⟩,
   ⟨"config", false, false, none, none, 0, 60⟩,
   ⟨"id_rsa", false, true, some "F2", some "ssh-rsa BBB", 2048, 70⟩,
   ⟨"junk", false, false, none, none, 0, 10⟩]

/-- A rotation pair whose account has no token anywhere. -/
def noTokenRotation : KeyRotation :=
  ⟨"personal", 0, "github", 0, 0, "noone", "",
   ⟨"ed25519", 0, 100, "FP1", "key1", "11", "active"⟩, "mach"⟩

/-- Collaborator outcomes for the tokenless pair: every step would succeed,
but the token store is empty. -/
def noTokenEnv : RotateEnv :=
  ⟨true, some "FP", some "PK", [], fun _ _ => some "90", true, true, true, true, true⟩

/-- A sibling rotation pair with a valid account-scoped token. -/
def bobRotation : KeyRotation :=
  ⟨"personal", 0, "github", 0, 1, "bob", "",
   ⟨"ed25519", 5, 100, "FP2", "key2", "12", "active"⟩, "mach"⟩

/-- Collaborator outcomes for the sibling pair: all steps succeed. -/
def bobEnv : RotateEnv :=
  ⟨true, some "NFP2", some "PK2", [(("git-keys-github", "bob"), "t2")],
   fun _ _ => some "101", true, true, true, true, true⟩

/-! ## Theorems -/

theorem find?_first {α : Type} (p : α → Bool) :
    ∀ (l : List α) (k : α), l.find? p = some k →
      p k = true ∧ ∃ i, ∃ h : i < l.length, l.get ⟨i, h⟩ = k ∧
        ∀ j (hj : j < l.length), j < i → p (l.get ⟨j, hj⟩) = false := by
  intro l
  induction l with
  | nil => intro k h; simp [List.find?] at h
  | cons x xs ih =>
    intro k h
    rw [List.find?] at h
    cases hpx : p x with
    | true =>
      rw [hpx] at h
      simp only [Option.some.injEq] at h
      subst h
      refine ⟨hpx, 0, by simp, rfl, ?_⟩
      intro j hj hj0
      omega
    | false =>
      rw [hpx] at h
      obtain ⟨hk, i, hi, hget, hfirst⟩ := ih k h
      refine ⟨hk, i + 1, by simpa using Nat.succ_lt_succ hi, hget, ?_⟩
      intro j hj hji
      cases j with
      | zero => exact hpx
      | succ j' => exact hfirst j' (by simpa using Nat.lt_of_succ_lt_succ hj) (Nat.lt_of_succ_lt_succ hji)

theorem keysRotations_oldKeys (pn : String) (pi : Nat) (pt : String) (pli : Nat)
    (acct burl mn : String) :
    ∀ (ks : List KeyConfig) (n : Nat),
      (((ks.enumFrom n).flatMap fun kk =>
          if kk.2.status ≠ "active" then []
          else [(⟨pn, pi, pt, pli, kk.1, acct, burl, kk.2, mn⟩ : KeyRotation)]).map
        (·.oldKey))
      = ks.filter (fun k => k.status == "active") := by
  intro ks
  induction ks with
  | nil => intro n; rfl
  | cons k ks ih =>
    intro n
    simp only [List.enumFrom, List.flatMap_cons, List.map_append, List.filter_cons]
    rw [ih (n + 1)]
    by_cases hs : k.status = "active"
    · simp [hs]
    · simp [hs]

theorem platformRotations_oldKeys (pn : String) (pi : Nat) (mn : String) :
    ∀ (pls : List Platform) (n : Nat),
      (((pls.enumFrom n).flatMap fun lp =>
          if ("" : String) ≠ "" ∧ lp.2.type ≠ "" then []
          else
            lp.2.keys.enum.flatMap fun kk =>
              if kk.2.status ≠ "active" then []
              else [(⟨pn, pi, lp.2.type, lp.1, kk.1, lp.2.account, lp.2.baseURL,
                      kk.2, mn⟩ : KeyRotation)]).map (·.oldKey))
      = pls.flatMap (fun pl => pl.keys.filter (fun k => k.status == "active")) := by
  intro pls
  induction pls with
  | nil => intro n; rfl
  | cons pl pls ih =>
    intro n
    simp only [List.enumFrom, List.flatMap_cons, List.map_append]
    rw [ih (n + 1), if_neg (by simp),
      show (pl.keys.enum = pl.keys.enumFrom 0) from rfl,
      keysRotations_oldKeys pn pi pl.type n pl.account pl.baseURL mn pl.keys 0]

/-- The `map oldKey` image of the full rotation collection with no filters is
exactly the list of all active keys. -/
theorem collectRotations_all_active (cfg : Config) (mn : String) :
    (collectRotations cfg "" "" mn).map (·.oldKey) = activeKeysOf cfg := by
  unfold collectRotations activeKeysOf
  rw [show (cfg.personas.enum = cfg.personas.enumFrom 0) from rfl]
  generalize 0 = n
  induction cfg.personas generalizing n with
  | nil => rfl
  | cons pe ps ih =>
    simp only [List.enumFrom, List.flatMap_cons, List.map_append]
    rw [ih (n + 1), if_neg (by simp),
      show (pe.platforms.enum = pe.platforms.enumFrom 0) from rfl,
      platformRotations_oldKeys pe.name n mn pe.platforms 0]

/-- C10 counterexample: with two keys both marked "active" under one
platform, the rotation collection of `runRotate` contains an entry for the
second key (key index 1) as well — rotation does not use only the first
active key. -/
theorem rotation_collects_second_active_key :
    ∃ r ∈ collectRotations twoActiveCfg "" "" "mach", r.keyIdx = 1 := by
  decide

/-- C10 (amended): `GetActiveKey` returns the first key in list order whose
status is "active" and `none` when no key has that status; it is invariant
under arbitrary rewriting of expiry timestamps (so an expired key whose
status is still "active" is returned); and the rotation command's target
collection processes every key marked "active", not only the first. -/
theorem getActiveKey_first_active_and_rotation_all :
    (∀ (p : Platform) (k : KeyConfig), p.GetActiveKey = some k →
      k.status = "active" ∧ ∃ i, ∃ h : i < p.keys.length, p.keys.get ⟨i, h⟩ = k ∧
        ∀ j (hj : j < p.keys.length), j < i → (p.keys.get ⟨j, hj⟩).status ≠ "active") ∧
    (∀ p : Platform, p.GetActiveKey = none ↔ ∀ k ∈ p.keys, k.status ≠ "active") ∧
    (∀ (p : Platform) (f : KeyConfig → Nat),
      (p.withExpiries f).GetActiveKey =
        (p.GetActiveKey).map (fun k => { k with expiresAt := f k })) ∧
    (∀ (cfg : Config) (mn : String),
      (collectRotations cfg "" "" mn).map (·.oldKey) = activeKeysOf cfg) := by
  refine ⟨?_, ?_, ?_, collectRotations_all_active⟩
  · intro p k h
    obtain ⟨hk, i, hi, hget, hfirst⟩ := find?_first _ _ _ h
    refine ⟨by simpa using hk, i, hi, hget, ?_⟩
    intro j hj hji
    have := hfirst j hj hji
    simpa using this
  · intro p
    unfold Platform.GetActiveKey
    rw [List.find?_eq_none]
    constructor
    · intro h k hk
      have := h k hk
      simpa using this
    · intro h k hk
      simpa using h k hk
  · intro p f
    unfold Platform.GetActiveKey Platform.withExpiries
    rw [List.find?_map]
    rfl

/-- C4: with a declared config present, the recommendation is the verbatim
projection of the declared config — independent of the scan snapshot, with
persona names/emails, platform type/account/base URL copied and the key path
taken from the active key when one exists. -/
theorem recommend_declared_is_verbatim_projection (scan : ScanResult) (cfg : Config) :
    analyzeAndRecommend scan (some cfg) = declaredProjection cfg := by
  unfold analyzeAndRecommend analyzeAndRecommendWith declaredProjection
  have h : ∀ pl : Platform,
      (match pl.GetActiveKey with
       | some k => k.localPath
       | none => "") = ((pl.GetActiveKey).map (·.localPath)).getD "" := by
    intro pl; cases pl.GetActiveKey <;> rfl
  simp only [h]

/-- Witness for C4 at a concrete scan (with content) and declared config. -/
theorem recommend_declared_is_verbatim_projection_witness :
    analyzeAndRecommend corpGitlabScan (some twoActiveCfg) =
      declaredProjection twoActiveCfg :=
  recommend_declared_is_verbatim_projection corpGitlabScan twoActiveCfg

theorem entryToKey_isSome (d : String) (e : DirEntry) :
    (entryToKey d e).isSome = isValidKeyPair e := by
  unfold entryToKey isValidKeyPair
  cases hd : e.isDir <;> cases hx : isExcludedName e.name <;>
    cases hp : e.hasPubSibling <;> cases hf : e.fingerprintRes <;>
      cases hk : e.publicKeyRes <;> simp

theorem filterMap_entryToKey_length (d : String) :
    ∀ es : List DirEntry,
      (es.filterMap (entryToKey d)).length = (es.filter isValidKeyPair).length := by
  intro es
  induction es with
  | nil => rfl
  | cons e es ih =>
    rw [List.filterMap_cons, List.filter_cons]
    cases h : entryToKey d e with
    | none =>
      have hv : isValidKeyPair e = false := by
        have hs := entryToKey_isSome d e
        rw [h] at hs
        exact hs.symm
      simp [hv, ih]
    | some k =>
      have hv : isValidKeyPair e = true := by
        have hs := entryToKey_isSome d e
        rw [h] at hs
        exact hs.symm
      simp [hv, ih]

/-- C6: the scanner reports exactly one discovered key per directory entry
that forms a valid key pair (non-directory, non-excluded name, `.pub`
sibling present, fingerprint and public key both obtained) — every other
file contributes nothing, silently — and the result is a permutation of
those keys ordered by descending modification time. -/
theorem scan_counts_and_sorts_valid_pairs (sshDir : String) (entries : List DirEntry) :
    (scanSSHKeys sshDir entries).length = (entries.filter isValidKeyPair).length ∧
    (scanSSHKeys sshDir entries).Sorted newerFirst ∧
    (scanSSHKeys sshDir entries).Perm (entries.filterMap (entryToKey sshDir)) := by
  refine ⟨?_, ?_, ?_⟩
  · rw [← filterMap_entryToKey_length sshDir entries]
    exact (List.perm_insertionSort newerFirst _).length_eq
  · exact List.sorted_insertionSort newerFirst _
  · exact List.perm_insertionSort newerFirst _

/-- Witness for C6 at a concrete directory of two valid pairs and two
non-key files. -/
theorem scan_counts_and_sorts_valid_pairs_witness :
    (scanSSHKeys "/home/u/.ssh" sampleDirEntries).length =
      (sampleDirEntries.filter isValidKeyPair).length ∧
    (scanSSHKeys "/home/u/.ssh" sampleDirEntries).Sorted newerFirst ∧
    (scanSSHKeys "/home/u/.ssh" sampleDirEntries).Perm
      (sampleDirEntries.filterMap (entryToKey "/home/u/.ssh")) :=
  scan_counts_and_sorts_valid_pairs "/home/u/.ssh" sampleDirEntries

theorem enumFrom_flatMap_nil {α β : Type} (f : Nat × α → List β) :
    ∀ (l : List α) (n : Nat), (∀ i a, a ∈ l → f (i, a) = []) →
      (l.enumFrom n).flatMap f = [] := by
  intro l
  induction l with
  | nil => intro n _; rfl
  | cons x xs ih =>
    intro n h
    simp only [List.enumFrom, List.flatMap_cons]
    rw [h n x (by simp), ih (n + 1) (fun i a ha => h i a (by simp [ha]))]
    rfl

theorem findRevocation_eq_none (cfg : Config) (nfp : String)
    (h : ∀ pe ∈ cfg.personas, ∀ pl ∈ pe.platforms, ∀ k ∈ pl.keys,
          trimPrefixS k.fingerprint "SHA256:" ≠ nfp) :
    findRevocation cfg nfp = none := by
  unfold findRevocation
  rw [show (cfg.personas.enum = cfg.personas.enumFrom 0) from rfl]
  rw [enumFrom_flatMap_nil _ cfg.personas 0 ?_]
  · rfl
  · intro i pe hpe
    rw [show (pe.platforms.enum = pe.platforms.enumFrom 0) from rfl]
    apply enumFrom_flatMap_nil
    intro j pl hpl
    have hfind : pl.keys.find? (fun k => trimPrefixS k.fingerprint "SHA256:" == nfp) = none := by
      rw [List.find?_eq_none]
      intro k hk
      simpa using h pe hpe pl hpl k hk
    simp only [hfind]

/-- C7: revoking by a fingerprint whose prefix-normalized form matches no
key anywhere in the declared model yields the "no key found" error and
performs no save — the persisted configuration file is untouched. -/
theorem revokeByFingerprint_not_found_no_save (cfg : Config) (store : TokenStore)
    (deleteOk : String → Bool) (fp : String)
    (h : ∀ pe ∈ cfg.personas, ∀ pl ∈ pe.platforms, ∀ k ∈ pl.keys,
          trimPrefixS k.fingerprint "SHA256:" ≠ trimPrefixS fp "SHA256:") :
    (revokeByFingerprintModel cfg store deleteOk fp).savedConfigs = [] ∧
    (revokeByFingerprintModel cfg store deleteOk fp).errorMsg =
      some ("no key found with fingerprint: " ++ trimPrefixS fp "SHA256:") := by
  have hnone := findRevocation_eq_none cfg (trimPrefixS fp "SHA256:") h
  simp [revokeByFingerprintModel, hnone]

/-- Witness for C7 at a concrete configuration and fingerprint. -/
theorem revokeByFingerprint_not_found_no_save_witness :
    (revokeByFingerprintModel oneRemoteKeyCfg aliceStore (fun _ => true)
        "SHA256:zzz").savedConfigs = [] ∧
    (revokeByFingerprintModel oneRemoteKeyCfg aliceStore (fun _ => true)
        "SHA256:zzz").errorMsg =
      some ("no key found with fingerprint: " ++ trimPrefixS "SHA256:zzz" "SHA256:") :=
  revokeByFingerprint_not_found_no_save oneRemoteKeyCfg aliceStore (fun _ => true)
    "SHA256:zzz" (by decide)

/-- C1 (code bug, evaluated at the failing input): with one active key whose
remote deletion succeeds, the revoke command reports the revocation as
successful on its working copy, yet the configuration it saves is the
untouched loaded one, whose only key still has status "active". -/
theorem revoke_save_drops_status_updates :
    (runRevokeModel oneRemoteKeyCfg aliceStore (fun _ => true) "" "").processed.map (·.2)
      = [true] ∧
    (runRevokeModel oneRemoteKeyCfg aliceStore (fun _ => true) "" "").savedConfigs
      = [oneRemoteKeyCfg] ∧
    ((oneRemoteKeyCfg.personas.flatMap (·.platforms)).flatMap (·.keys)).map (·.status)
      = ["active"] := by
  decide

/-- C2 (code bug, evaluated at the failing input): when steps 1-2 succeed
and the step-3 routing update fails, `rotateKey` reports failure and
compensates the uploaded remote key, but the newly generated temporary key
files are NOT deleted (the deferred cleanup is disabled once `rot.NewKey`
was assigned after the upload); and once step 3 has succeeded, no outcome of
steps 4-6 (validate / remote delete / archive) or of the final rename ever
rolls the routing change back. -/
theorem rotate_step3_failure_keeps_temp_files :
    ((rotateKeyModel oneRemoteKeyCfg step3FailEnv aliceRotation 0).2.ok = false ∧
     (rotateKeyModel oneRemoteKeyCfg step3FailEnv aliceRotation 0).2.newKeyGenerated = true ∧
     (rotateKeyModel oneRemoteKeyCfg step3FailEnv aliceRotation 0).2.tempFilesDeleted = false ∧
     (rotateKeyModel oneRemoteKeyCfg step3FailEnv aliceRotation 0).2.compensatedRemoteKey = true ∧
     (rotateKeyModel oneRemoteKeyCfg step3FailEnv aliceRotation 0).1 = oneRemoteKeyCfg) ∧
    (∀ v rd ar rn : Bool,
      (rotateKeyModel oneRemoteKeyCfg
        { step3FailEnv with
            sshConfigOk := true
            validateOk := v
            remoteDeleteOk := rd
            archiveOk := ar
            renameOk := rn }
        aliceRotation 0).2.routingReferencesNewKey = true) := by
  constructor
  · decide
  · intro v rd ar rn
    cases rn <;> rfl

theorem updateDP_keys (key : String) (f : DiscoveredPlatform → DiscoveredPlatform) :
    ∀ m : PlatformMap,
      (updatePlatformMap.updateDP m key f).map (·.1) = m.map (·.1) := by
  intro m
  induction m with
  | nil => rfl
  | cons kv rest ih =>
    rw [updatePlatformMap.updateDP]
    by_cases hk : kv.1 = key
    · simp [hk]
    · simp [hk, ih]

theorem updateDP_consistent (key : String) (f : DiscoveredPlatform → DiscoveredPlatform)
    (hf : ∀ p, (f p).type = p.type ∧ (f p).baseURL = p.baseURL) :
    ∀ m : PlatformMap, (∀ kv ∈ m, kv.1 = kv.2.type ++ ":" ++ kv.2.baseURL) →
      ∀ kv ∈ updatePlatformMap.updateDP m key f,
        kv.1 = kv.2.type ++ ":" ++ kv.2.baseURL := by
  intro m
  induction m with
  | nil => intro _ kv hkv; simp [updatePlatformMap.updateDP] at hkv
  | cons hd rest ih =>
    intro hcons kv hkv
    rw [updatePlatformMap.updateDP] at hkv
    by_cases hk : hd.1 = key
    · rw [if_pos hk] at hkv
      rcases List.mem_cons.mp hkv with heq | hmem
      · rw [heq]
        have h1 := hcons hd (by simp)
        have h2 := hf hd.2
        show hd.1 = (f hd.2).type ++ ":" ++ (f hd.2).baseURL
        rw [h2.1, h2.2]
        exact h1
      · exact hcons kv (List.mem_cons_of_mem _ hmem)
    · rw [if_neg hk] at hkv
      rcases List.mem_cons.mp hkv with heq | hmem
      · rw [heq]
        exact hcons hd (by simp)
      · exact ih (fun kv h => hcons kv (List.mem_cons_of_mem _ h)) kv hmem

theorem lookupDP_none_not_mem (key : String) :
    ∀ m : PlatformMap, updatePlatformMap.lookupDP m key = none →
      ∀ kv ∈ m, kv.1 ≠ key := by
  intro m
  induction m with
  | nil => intro _ kv hkv; simp at hkv
  | cons hd rest ih =>
    intro hl kv hkv
    rw [updatePlatformMap.lookupDP] at hl
    by_cases hk : hd.1 = key
    · rw [if_pos hk] at hl; exact absurd hl (by simp)
    · rw [if_neg hk] at hl
      rcases List.mem_cons.mp hkv with heq | hmem
      · subst heq; exact hk
      · exact ih hl kv hmem

theorem updatePlatformMap_invariant (t b g : String) (m : PlatformMap)
    (hcons : ∀ kv ∈ m, kv.1 = kv.2.type ++ ":" ++ kv.2.baseURL)
    (hnodup : m.Pairwise (fun a b => a.1 ≠ b.1)) :
    (∀ kv ∈ updatePlatformMap m t b g, kv.1 = kv.2.type ++ ":" ++ kv.2.baseURL) ∧
    (updatePlatformMap m t b g).Pairwise (fun a b => a.1 ≠ b.1) := by
  cases hl : updatePlatformMap.lookupDP m (t ++ ":" ++ b) with
  | some p =>
    have hrw : updatePlatformMap m t b g =
        updatePlatformMap.updateDP m (t ++ ":" ++ b) (fun q =>
          { q with
              repoCount := q.repoCount + 1
              groups := if g ≠ "" ∧ ¬ (q.groups.contains g) then q.groups ++ [g]
                        else q.groups }) := by
      simp only [updatePlatformMap, hl]
    rw [hrw]
    constructor
    · exact updateDP_consistent (t ++ ":" ++ b) (fun q =>
        { q with
            repoCount := q.repoCount + 1
            groups := if g ≠ "" ∧ ¬ (q.groups.contains g) then q.groups ++ [g]
                      else q.groups }) (fun q => ⟨rfl, rfl⟩) m hcons
    · have hkeys := updateDP_keys (t ++ ":" ++ b) (fun q =>
        { q with
            repoCount := q.repoCount + 1
            groups := if g ≠ "" ∧ ¬ (q.groups.contains g) then q.groups ++ [g]
                      else q.groups }) m
      have h1 : (m.map (·.1)).Pairwise (fun a b => a ≠ b) :=
        List.pairwise_map.mpr hnodup
      rw [← hkeys] at h1
      exact List.pairwise_map.mp h1
  | none =>
    have hrw : updatePlatformMap m t b g =
        m ++ [(t ++ ":" ++ b, ⟨t, b, 1, if g ≠ "" then [g] else []⟩)] := by
      simp only [updatePlatformMap, hl]
    rw [hrw]
    constructor
    · intro kv hkv
      rcases List.mem_append.mp hkv with hmem | hnew
      · exact hcons kv hmem
      · simp only [List.mem_singleton] at hnew
        rw [hnew]
    · rw [List.pairwise_append]
      refine ⟨hnodup, by simp, ?_⟩
      intro a ha b hb
      simp only [List.mem_singleton] at hb
      subst hb
      exact lookupDP_none_not_mem _ m hl a ha

theorem discover_fold_invariant (urls : List String) :
    ∀ m : PlatformMap,
      (∀ kv ∈ m, kv.1 = kv.2.type ++ ":" ++ kv.2.baseURL) →
      m.Pairwise (fun a b => a.1 ≠ b.1) →
      (∀ kv ∈ urls.foldl (fun m url =>
          let tbg := parseGitRemoteURL url
          if tbg.1 = "" then m
          else updatePlatformMap m tbg.1 tbg.2.1 tbg.2.2) m,
        kv.1 = kv.2.type ++ ":" ++ kv.2.baseURL) ∧
      (urls.foldl (fun m url =>
          let tbg := parseGitRemoteURL url
          if tbg.1 = "" then m
          else updatePlatformMap m tbg.1 tbg.2.1 tbg.2.2) m).Pairwise
        (fun a b => a.1 ≠ b.1) := by
  induction urls with
  | nil => intro m h1 h2; exact ⟨h1, h2⟩
  | cons u us ih =>
    intro m h1 h2
    simp only [List.foldl_cons]
    by_cases hu : (parseGitRemoteURL u).1 = ""
    · simp only [hu, if_pos rfl]
      exact ih m h1 h2
    · simp only [if_neg hu]
      obtain ⟨h1', h2'⟩ := updatePlatformMap_invariant (parseGitRemoteURL u).1
        (parseGitRemoteURL u).2.1 (parseGitRemoteURL u).2.2 m h1 h2
      exact ih _ h1' h2'

/-- C8: the platform list produced by the directory walk never contains two
entries with the same (platform type, base URL) pair, and a second remote
URL resolving to the same pair bumps the existing entry's repo count to 2
(accumulating its group label when new) instead of adding a duplicate. -/
theorem discover_dedups_by_type_baseURL :
    (∀ urls : List String,
      (discoverPlatformsInDirectory urls).Pairwise
        (fun a b => ¬(a.type = b.type ∧ a.baseURL = b.baseURL))) ∧
    (∀ u1 u2 t b g1 g2 : String, t ≠ "" →
      parseGitRemoteURL u1 = (t, b, g1) → parseGitRemoteURL u2 = (t, b, g2) →
      discoverPlatformsInDirectory [u1, u2] =
        [⟨t, b, 2,
          if g2 ≠ "" ∧ ¬((if g1 ≠ "" then [g1] else []).contains g2)
          then (if g1 ≠ "" then [g1] else []) ++ [g2]
          else (if g1 ≠ "" then [g1] else [])⟩]) := by
  constructor
  · intro urls
    unfold discoverPlatformsInDirectory
    obtain ⟨h1, h2⟩ := discover_fold_invariant urls [] (by simp) (by simp)
    rw [List.pairwise_map]
    refine List.Pairwise.imp_of_mem (fun {a b} ha hb hne => ?_) h2
    intro hab
    exact hne (by rw [h1 a ha, h1 b hb, hab.1, hab.2])
  · intro u1 u2 t b g1 g2 ht h1 h2
    unfold discoverPlatformsInDirectory
    simp only [List.foldl_cons, List.foldl_nil, h1, h2]
    rw [if_neg ht, if_neg ht]
    simp [updatePlatformMap, updatePlatformMap.lookupDP, updatePlatformMap.updateDP]

/-- Witness for C8's increment clause at two concrete remote URLs (one SSH
form, one HTTPS form, both for github.com with group "alice"). -/
theorem discover_dedups_by_type_baseURL_witness :
    discoverPlatformsInDirectory
        ["git@github.com:alice/repo1.git", "https://github.com/alice/repo2.git"] =
      [⟨"github", "", 2,
        if ("alice" : String) ≠ "" ∧
            ¬((if ("alice" : String) ≠ "" then ["alice"] else []).contains "alice")
        then (if ("alice" : String) ≠ "" then ["alice"] else []) ++ ["alice"]
        else (if ("alice" : String) ≠ "" then ["alice"] else [])⟩] :=
  discover_dedups_by_type_baseURL.2 "git@github.com:alice/repo1.git"
    "https://github.com/alice/repo2.git" "github" "" "alice" "alice"
    (by decide) (by decide) (by decide)

theorem lookupRP_append_left (m m' : EmailMap) (k : String) (v : RecommendedPersona)
    (h : lookupRP m k = some v) : lookupRP (m ++ m') k = some v := by
  induction m with
  | nil => simp [lookupRP] at h
  | cons kv rest ih =>
    rw [lookupRP] at h
    rw [List.cons_append, lookupRP]
    by_cases hk : kv.1 = k
    · rw [if_pos hk] at h ⊢; exact h
    · rw [if_neg hk] at h ⊢; exact ih h

theorem updateRP_lookup (m : EmailMap) (k : String)
    (f : RecommendedPersona → RecommendedPersona) (v : RecommendedPersona)
    (h : lookupRP m k = some v) : lookupRP (updateRP m k f) k = some (f v) := by
  induction m with
  | nil => simp [lookupRP] at h
  | cons kv rest ih =>
    rw [lookupRP] at h
    rw [updateRP]
    by_cases hk : kv.1 = k
    · rw [if_pos hk] at h
      rw [if_pos hk, lookupRP, if_pos hk, Option.some.injEq] at *
      rw [h]
    · rw [if_neg hk] at h
      rw [if_neg hk, lookupRP, if_neg hk]
      exact ih h

theorem lookupRP_mem (m : EmailMap) (k : String) (v : RecommendedPersona)
    (h : lookupRP m k = some v) : v ∈ m.map (·.2) := by
  induction m with
  | nil => simp [lookupRP] at h
  | cons kv rest ih =>
    rw [lookupRP] at h
    by_cases hk : kv.1 = k
    · rw [if_pos hk, Option.some.injEq] at h
      simp [← h]
    · rw [if_neg hk] at h
      simp [ih h]

theorem step12_fold_preserves (k : String) (v : RecommendedPersona) :
    ∀ (includes : List GitInclude) (m : EmailMap), lookupRP m k = some v →
      lookupRP (includes.foldl (fun m inc =>
        if inc.email = "" then m
        else if (lookupRP m inc.email).isSome then m
        else
          m ++ [(inc.email,
            ⟨inferPersonaName inc, inc.email,
             inc.discoveredPlatforms.map (fun d => ⟨d.type, "", d.baseURL, ""⟩)⟩)]) m) k
      = some v := by
  intro includes
  induction includes with
  | nil => intro m h; exact h
  | cons inc incs ih =>
    intro m h
    rw [List.foldl_cons]
    by_cases he : inc.email = ""
    · rw [if_pos he]; exact ih m h
    · rw [if_neg he]
      by_cases hs : (lookupRP m inc.email).isSome
      · rw [if_pos hs]; exact ih m h
      · rw [if_neg hs]
        exact ih _ (lookupRP_append_left m _ k v h)

theorem step3Step_nomatch (pick : EmailMap → Option String) (ge : String)
    (m : EmailMap) (h : SSHConfigHost) (hm : hostEntryMatches h = false) :
    step3Step pick ge m h = m := by
  simp [step3Step, hm]

theorem step3Step_global (pick : EmailMap → Option String) (ge : String)
    (m : EmailMap) (h : SSHConfigHost) (hm : hostEntryMatches h = true)
    (hge : ge ≠ "") (hv : (lookupRP m ge).isSome) :
    step3Step pick ge m h =
      updateRP m ge (fun p => { p with platforms := p.platforms ++ [hostEntryPlatform h] }) := by
  simp [step3Step, step3Target, hm, hge, hv]

theorem step3Step_cases (pick : EmailMap → Option String) (ge : String)
    (m : EmailMap) (h : SSHConfigHost) :
    step3Step pick ge m h = m ∨
    ∃ key, step3Step pick ge m h =
      updateRP m key (fun p => { p with platforms := p.platforms ++ [hostEntryPlatform h] }) := by
  by_cases hm : hostEntryMatches h
  · cases ht : step3Target pick ge m with
    | none => exact Or.inl (by simp [step3Step, hm, ht])
    | some key => exact Or.inr ⟨key, by simp [step3Step, hm, ht]⟩
  · exact Or.inl (by simp [step3Step, hm])

theorem step3FoldWith_global (pick : EmailMap → Option String) (ge : String)
    (hge : ge ≠ "") :
    ∀ (hosts : List SSHConfigHost) (m : EmailMap) (v : RecommendedPersona),
      lookupRP m ge = some v →
      lookupRP (step3FoldWith pick ge hosts m) ge =
        some { v with platforms :=
          v.platforms ++ (hosts.filter hostEntryMatches).map hostEntryPlatform } := by
  intro hosts
  induction hosts with
  | nil =>
    intro m v hv
    simpa [step3FoldWith] using hv
  | cons h t ih =>
    intro m v hv
    have hcons : step3FoldWith pick ge (h :: t) m =
        step3FoldWith pick ge t (step3Step pick ge m h) := rfl
    by_cases hm : hostEntryMatches h
    · rw [hcons, step3Step_global pick ge m h hm hge (by simp [hv])]
      have hv' := updateRP_lookup m ge
        (fun p => { p with platforms := p.platforms ++ [hostEntryPlatform h] }) v hv
      rw [ih _ _ hv', List.filter_cons_of_pos hm, List.map_cons]
      simp
    · rw [hcons, step3Step_nomatch pick ge m h (by simpa using hm),
        ih m v hv, List.filter_cons_of_neg (by simpa using hm)]

/-- C3 counterexample: with no declared config, a routing entry whose
hostname contains "gitlab" but is not exactly "gitlab.com" gets no platform
attached — the source compares the hostname by exact equality against
"github.com" and "gitlab.com" (status.go:694), so the global-email persona
ends up with an empty platform list; this holds for every map-iteration
choice, since the fallback is never consulted here. -/
theorem recommend_ignores_noncanonical_gitlab_host :
    containsSubS "gitlab.corp.example" "gitlab" = true ∧
    ∀ pick : EmailMap → Option String,
      analyzeAndRecommendWith pick corpGitlabScan none =
        ⟨[⟨"personal", "ann@example.com", []⟩]⟩ := by
  constructor
  · decide
  · intro pick
    rfl

theorem updateRP_mem_platforms (key : String) (y x : RecommendedPlatform) :
    ∀ (m : EmailMap) (rp : RecommendedPersona), rp ∈ m.map (·.2) → x ∈ rp.platforms →
      ∃ rp' ∈ (updateRP m key
          (fun p => { p with platforms := p.platforms ++ [y] })).map (·.2),
        x ∈ rp'.platforms := by
  intro m
  induction m with
  | nil => intro rp hrp _; simp at hrp
  | cons kv rest ih =>
    intro rp hrp hx
    rw [List.map_cons] at hrp
    rw [updateRP]
    by_cases hk : kv.1 = key
    · rw [if_pos hk]
      rcases List.mem_cons.mp hrp with heq | hmem
      · refine ⟨{ kv.2 with platforms := kv.2.platforms ++ [y] }, by simp, ?_⟩
        exact List.mem_append_left _ (heq ▸ hx)
      · exact ⟨rp, by simp [hmem], hx⟩
    · rw [if_neg hk]
      rcases List.mem_cons.mp hrp with heq | hmem
      · exact ⟨kv.2, by simp, heq ▸ hx⟩
      · obtain ⟨rp', hrp', hx'⟩ := ih rp hmem hx
        exact ⟨rp', by simp only [List.map_cons, List.mem_cons]; exact Or.inr hrp', hx'⟩

theorem step3Step_mem_platforms (pick : EmailMap → Option String) (ge : String)
    (h : SSHConfigHost) (x : RecommendedPlatform) (m : EmailMap)
    (rp : RecommendedPersona) (hrp : rp ∈ m.map (·.2)) (hx : x ∈ rp.platforms) :
    ∃ rp' ∈ (step3Step pick ge m h).map (·.2), x ∈ rp'.platforms := by
  rcases step3Step_cases pick ge m h with heq | ⟨key, heq⟩
  · rw [heq]; exact ⟨rp, hrp, hx⟩
  · rw [heq]; exact updateRP_mem_platforms key _ x m rp hrp hx

theorem updateRP_ne_nil {m : EmailMap} (key : String)
    (f : RecommendedPersona → RecommendedPersona) (hm : m ≠ []) :
    updateRP m key f ≠ [] := by
  cases m with
  | nil => exact absurd rfl hm
  | cons kv rest =>
    rw [updateRP]
    split <;> simp

theorem step3Step_ne_nil (pick : EmailMap → Option String) (ge : String)
    (m : EmailMap) (h : SSHConfigHost) (hm : m ≠ []) :
    step3Step pick ge m h ≠ [] := by
  rcases step3Step_cases pick ge m h with heq | ⟨key, heq⟩
  · rw [heq]; exact hm
  · rw [heq]; exact updateRP_ne_nil key _ hm

theorem updateRP_names (key : String) (y : RecommendedPlatform) :
    ∀ m : EmailMap,
      (updateRP m key (fun p => { p with platforms := p.platforms ++ [y] })).map
        (fun kv => (kv.2.name, kv.2.email)) =
      m.map (fun kv => (kv.2.name, kv.2.email)) := by
  intro m
  induction m with
  | nil => rfl
  | cons kv rest ih =>
    rw [updateRP]
    by_cases hk : kv.1 = key
    · rw [if_pos hk]; simp
    · rw [if_neg hk]; simp [ih]

theorem step3Step_names (pick : EmailMap → Option String) (ge : String)
    (h : SSHConfigHost) (m : EmailMap) :
    (step3Step pick ge m h).map (fun kv => (kv.2.name, kv.2.email)) =
      m.map (fun kv => (kv.2.name, kv.2.email)) := by
  rcases step3Step_cases pick ge m h with heq | ⟨key, heq⟩
  · rw [heq]
  · rw [heq]
    exact updateRP_names key _ m

theorem step3FoldWith_names (pick : EmailMap → Option String) (ge : String) :
    ∀ (hosts : List SSHConfigHost) (m : EmailMap),
      (step3FoldWith pick ge hosts m).map (fun kv => (kv.2.name, kv.2.email)) =
        m.map (fun kv => (kv.2.name, kv.2.email)) := by
  intro hosts
  induction hosts with
  | nil => intro m; rfl
  | cons h t ih =>
    intro m
    have hcons : step3FoldWith pick ge (h :: t) m =
        step3FoldWith pick ge t (step3Step pick ge m h) := rfl
    rw [hcons, ih, step3Step_names]

theorem step3FoldWith_ne_nil (pick : EmailMap → Option String) (ge : String) :
    ∀ (hosts : List SSHConfigHost) (m : EmailMap), m ≠ [] →
      step3FoldWith pick ge hosts m ≠ [] := by
  intro hosts
  induction hosts with
  | nil => intro m hm; exact hm
  | cons h t ih =>
    intro m hm
    exact ih (step3Step pick ge m h) (step3Step_ne_nil pick ge m h hm)

theorem step3FoldWith_mem_platforms (pick : EmailMap → Option String) (ge : String)
    (x : RecommendedPlatform) :
    ∀ (hosts : List SSHConfigHost) (m : EmailMap) (rp : RecommendedPersona),
      rp ∈ m.map (·.2) → x ∈ rp.platforms →
      ∃ rp' ∈ (step3FoldWith pick ge hosts m).map (·.2), x ∈ rp'.platforms := by
  intro hosts
  induction hosts with
  | nil => intro m rp hrp hx; exact ⟨rp, hrp, hx⟩
  | cons h t ih =>
    intro m rp hrp hx
    obtain ⟨rp', hrp', hx'⟩ := step3Step_mem_platforms pick ge h x m rp hrp hx
    exact ih (step3Step pick ge m h) rp' hrp' hx'

theorem step3Step_attaches (pick : EmailMap → Option String) (m : EmailMap)
    (h : SSHConfigHost) (hm : hostEntryMatches h = true)
    (hpick : ∃ k, pick m = some k ∧ (lookupRP m k).isSome) :
    ∃ rp ∈ (step3Step pick "" m h).map (·.2), hostEntryPlatform h ∈ rp.platforms := by
  obtain ⟨k, hpk, hsome⟩ := hpick
  obtain ⟨v, hv⟩ := Option.isSome_iff_exists.mp hsome
  have hstep : step3Step pick "" m h = updateRP m k
      (fun p => { p with platforms := p.platforms ++ [hostEntryPlatform h] }) := by
    simp [step3Step, step3Target, hm, hpk]
  rw [hstep]
  have hv' := updateRP_lookup m k
    (fun p => { p with platforms := p.platforms ++ [hostEntryPlatform h] }) v hv
  exact ⟨_, lookupRP_mem _ _ _ hv', by simp⟩

theorem step3FoldWith_fallback_attaches (pick : EmailMap → Option String)
    (hpick : ∀ m' : EmailMap, m' ≠ [] → ∃ k, pick m' = some k ∧ (lookupRP m' k).isSome) :
    ∀ (hosts : List SSHConfigHost) (m : EmailMap), m ≠ [] →
      ∀ h ∈ hosts, hostEntryMatches h = true →
        ∃ rp ∈ (step3FoldWith pick "" hosts m).map (·.2),
          hostEntryPlatform h ∈ rp.platforms := by
  intro hosts
  induction hosts with
  | nil => intro m _ h hh; simp at hh
  | cons h' t ih =>
    intro m hm h hh hmatch
    have hcons : step3FoldWith pick "" (h' :: t) m =
        step3FoldWith pick "" t (step3Step pick "" m h') := rfl
    rcases List.mem_cons.mp hh with heq | hmem
    · subst heq
      obtain ⟨rp, hrp, hx⟩ := step3Step_attaches pick m h hmatch (hpick m hm)
      rw [hcons]
      exact step3FoldWith_mem_platforms pick "" (hostEntryPlatform h) t
        (step3Step pick "" m h) rp hrp hx
    · rw [hcons]
      exact ih (step3Step pick "" m h') (step3Step_ne_nil pick "" m h' hm) h hmem hmatch

/-- C3 (amended): with no declared config, the matching routing entries are
exactly those whose hostname is "github.com" or "gitlab.com" (both exact
comparisons); each attaches a placeholder-account platform (typed gitlab
when the hostname contains "gitlab", github otherwise, key path from the
entry's identity file).  When a global git email is set they all go to the
"personal" persona carrying that email, whatever the map-iteration choice;
when none is set, each goes to some persona of the non-empty working set —
whichever one the admissible (but otherwise arbitrary) map-iteration choice
yields — and the recommendation's personas are exactly the working set's
(same names and emails, in order). -/
theorem recommend_attaches_exact_host_platforms :
    (∀ (pick : EmailMap → Option String) (scan : ScanResult),
      scan.gitConfig.globalEmail ≠ "" →
      ∃ rp ∈ (analyzeAndRecommendWith pick scan none).personas,
        rp.name = "personal" ∧ rp.email = scan.gitConfig.globalEmail ∧
        rp.platforms =
          (scan.sshConfigHosts.filter hostEntryMatches).map hostEntryPlatform) ∧
    (∀ (pick : EmailMap → Option String) (scan : ScanResult),
      (∀ m' : EmailMap, m' ≠ [] → ∃ k, pick m' = some k ∧ (lookupRP m' k).isSome) →
      scan.gitConfig.globalEmail = "" → step12Map scan ≠ [] →
      (∀ h ∈ scan.sshConfigHosts, hostEntryMatches h = true →
        ∃ rp ∈ (analyzeAndRecommendWith pick scan none).personas,
          hostEntryPlatform h ∈ rp.platforms) ∧
      (analyzeAndRecommendWith pick scan none).personas.map
          (fun rp => (rp.name, rp.email)) =
        (step12Map scan).map (fun kv => (kv.2.name, kv.2.email))) := by
  constructor
  · intro pick scan hge
    have h0 : lookupRP (step12Map scan) scan.gitConfig.globalEmail =
        some ⟨"personal", scan.gitConfig.globalEmail, []⟩ := by
      unfold step12Map
      rw [if_pos hge]
      apply step12_fold_preserves
      simp [lookupRP]
    have h3 := step3FoldWith_global pick scan.gitConfig.globalEmail hge
      scan.sshConfigHosts (step12Map scan) ⟨"personal", scan.gitConfig.globalEmail, []⟩ h0
    refine ⟨_, lookupRP_mem _ _ _ h3, rfl, rfl, rfl⟩
  · intro pick scan hpick hge hne
    constructor
    · intro h hh hmatch
      show ∃ rp ∈ (step3FoldWith pick scan.gitConfig.globalEmail scan.sshConfigHosts
          (step12Map scan)).map (·.2), hostEntryPlatform h ∈ rp.platforms
      rw [hge]
      exact step3FoldWith_fallback_attaches pick hpick scan.sshConfigHosts
        (step12Map scan) hne h hh hmatch
    · show ((step3FoldWith pick scan.gitConfig.globalEmail scan.sshConfigHosts
            (step12Map scan)).map (·.2)).map (fun rp => (rp.name, rp.email)) =
          (step12Map scan).map (fun kv => (kv.2.name, kv.2.email))
      rw [List.map_map]
      exact step3FoldWith_names pick scan.gitConfig.globalEmail
        scan.sshConfigHosts (step12Map scan)

/-- Witness for C3's amended claim at the insertion-order choice: the
global-email case at one concrete scan and the no-global-email fallback case
at another. -/
theorem recommend_attaches_exact_host_platforms_witness :
    (∃ rp ∈ (analyzeAndRecommendWith (fun m => m.head?.map (·.1)) ghGlScan none).personas,
      rp.name = "personal" ∧ rp.email = ghGlScan.gitConfig.globalEmail ∧
      rp.platforms =
        (ghGlScan.sshConfigHosts.filter hostEntryMatches).map hostEntryPlatform) ∧
    ((∀ h ∈ emptyEmailScan.sshConfigHosts, hostEntryMatches h = true →
        ∃ rp ∈ (analyzeAndRecommendWith (fun m => m.head?.map (·.1))
            emptyEmailScan none).personas,
          hostEntryPlatform h ∈ rp.platforms) ∧
      (analyzeAndRecommendWith (fun m => m.head?.map (·.1))
          emptyEmailScan none).personas.map (fun rp => (rp.name, rp.email)) =
        (step12Map emptyEmailScan).map (fun kv => (kv.2.name, kv.2.email))) :=
  ⟨recommend_attaches_exact_host_platforms.1 (fun m => m.head?.map (·.1)) ghGlScan
    (by decide),
   recommend_attaches_exact_host_platforms.2 (fun m => m.head?.map (·.1)) emptyEmailScan
    (fun m' hm' => by
      cases m' with
      | nil => exact absurd rfl hm'
      | cons kv rest => exact ⟨kv.1, rfl, by simp [lookupRP]⟩)
    (by decide) (by decide)⟩

theorem removeBlockAux_cons_begin (b l : String) (ls : List String) (flag : Bool)
    (h : isBeginLineFor b l = true) :
    removeBlockAux b flag (l :: ls) = removeBlockAux b true ls := by
  rw [removeBlockAux, if_pos h]

theorem removeBlockAux_cons_keep (b l : String) (ls : List String)
    (h : isBeginLineFor b l = false) :
    removeBlockAux b false (l :: ls) = l :: removeBlockAux b false ls := by
  rw [removeBlockAux, if_neg (by simp [h]), if_neg (by simp), if_neg (by simp)]

theorem removeBlockAux_cons_end (b l : String) (ls : List String)
    (h1 : isBeginLineFor b l = false) (h2 : isEndLine l = true) :
    removeBlockAux b true (l :: ls) = removeBlockAux b false ls := by
  rw [removeBlockAux, if_neg (by simp [h1]), if_pos (by simp [h2])]

theorem removeBlockAux_cons_skip (b l : String) (ls : List String)
    (h1 : isBeginLineFor b l = false) (h2 : isEndLine l = false) :
    removeBlockAux b true (l :: ls) = removeBlockAux b true ls := by
  rw [removeBlockAux, if_neg (by simp [h1]), if_neg (by simp [h2]), if_pos rfl]

theorem removeBlockAux_sublist (b : String) :
    ∀ (ls : List String) (flag : Bool), (removeBlockAux b flag ls).Sublist ls := by
  intro ls
  induction ls with
  | nil => intro flag; simp [removeBlockAux]
  | cons l ls ih =>
    intro flag
    by_cases h1 : isBeginLineFor b l
    · rw [removeBlockAux_cons_begin b l ls flag h1]
      exact (ih true).cons l
    · cases flag with
      | false =>
        rw [removeBlockAux_cons_keep b l ls (by simpa using h1)]
        exact (ih false).cons₂ l
      | true =>
        by_cases h2 : isEndLine l
        · rw [removeBlockAux_cons_end b l ls (by simpa using h1) h2]
          exact (ih false).cons l
        · rw [removeBlockAux_cons_skip b l ls (by simpa using h1) (by simpa using h2)]
          exact (ih true).cons l

theorem removeBlockAux_skip_outside (b : String) :
    ∀ (pre rest : List String), (∀ l ∈ pre, isBeginLineFor b l = false) →
      removeBlockAux b false (pre ++ rest) = pre ++ removeBlockAux b false rest := by
  intro pre
  induction pre with
  | nil => intro rest _; rfl
  | cons l pre ih =>
    intro rest h
    rw [List.cons_append, removeBlockAux_cons_keep b l _ (h l (by simp)),
      ih rest (fun x hx => h x (by simp [hx])), List.cons_append]

theorem removeBlockAux_consume (b : String) :
    ∀ (body rest : List String), (∀ l ∈ body, isEndLine l = false) →
      removeBlockAux b true (body ++ rest) = removeBlockAux b true rest := by
  intro body
  induction body with
  | nil => intro rest _; rfl
  | cons l body ih =>
    intro rest h
    rw [List.cons_append]
    by_cases h1 : isBeginLineFor b l
    · rw [removeBlockAux_cons_begin b l _ true h1,
        ih rest (fun x hx => h x (by simp [hx]))]
    · rw [removeBlockAux_cons_skip b l _ (by simpa using h1) (h l (by simp)),
        ih rest (fun x hx => h x (by simp [hx]))]

/-- C9 counterexample: upserting block id "a" into a file whose only managed
block has id "ab" deletes that block's content ("Host inner"), although it
lies outside any region named "a" — the begin marker is matched only by
prefix (part_001:105). -/
theorem upsert_removes_prefix_collided_block :
    ("Host inner" ∈ prefixCollisionLines) ∧
    "Host inner" ∉ AddOrUpdateEntry prefixCollisionLines "a" [] := by
  decide

/-- C9 (amended): the upsert never reorders or alters surviving lines (the
removal phase yields a sublist of the input); a file with no begin marker
for a block id extending the given one is preserved in full with the new
block appended at the end; and for a file holding one marker-delimited
region for the block id, with no other begin marker for an id extending it,
the region is removed and everything outside it is preserved in order, with
the new entries appended as a fresh managed block at the end of the file. -/
theorem upsert_preserves_outside_lines :
    (∀ (lines : List String) (b : String),
      (removeManagedBlock lines b).Sublist lines) ∧
    (∀ (lines : List String) (b : String) (entries : List SSHEntry),
      (∀ l ∈ lines, isBeginLineFor b l = false) →
      AddOrUpdateEntry lines b entries = lines ++ buildManagedBlock b entries) ∧
    (∀ (pre body post : List String) (beginLine endLine b : String)
        (entries : List SSHEntry),
      (∀ l ∈ pre, isBeginLineFor b l = false) →
      (∀ l ∈ post, isBeginLineFor b l = false) →
      (∀ l ∈ body, isEndLine l = false) →
      isBeginLineFor b beginLine = true →
      isEndLine endLine = true → isBeginLineFor b endLine = false →
      AddOrUpdateEntry (pre ++ [beginLine] ++ body ++ [endLine] ++ post) b entries =
        pre ++ post ++ buildManagedBlock b entries) := by
  refine ⟨?_, ?_, ?_⟩
  · intro lines b
    exact removeBlockAux_sublist b lines false
  · intro lines b entries h
    have h3 : removeBlockAux b false lines = lines := by
      simpa [removeBlockAux] using removeBlockAux_skip_outside b lines [] h
    unfold AddOrUpdateEntry removeManagedBlock
    rw [h3]
  · intro pre body post beginLine endLine b entries hpre hpost hbody hbegin hend hendnb
    have hpost' : removeBlockAux b false post = post := by
      simpa [removeBlockAux] using removeBlockAux_skip_outside b post [] hpost
    have hchain : removeBlockAux b false
        (pre ++ (beginLine :: (body ++ (endLine :: post)))) = pre ++ post := by
      rw [removeBlockAux_skip_outside b pre _ hpre,
        removeBlockAux_cons_begin b beginLine _ false hbegin,
        removeBlockAux_consume b body _ hbody,
        removeBlockAux_cons_end b endLine post hendnb hend, hpost']
    have hassoc : pre ++ [beginLine] ++ body ++ [endLine] ++ post =
        pre ++ (beginLine :: (body ++ (endLine :: post))) := by
      simp
    unfold AddOrUpdateEntry removeManagedBlock
    rw [hassoc, hchain, List.append_assoc]

/-- Witness for C9's amended claim: upserting block "main" into a file whose
prefix holds free lines and a managed block for the unrelated id "other"
replaces only the "main" region and preserves everything else. -/
theorem upsert_preserves_outside_lines_witness :
    AddOrUpdateEntry
        (outsidePrefixLines ++ ["# BEGIN git-keys managed block - main"] ++
         ["Host x"] ++ ["# END git-keys managed block"] ++ ["Host tail"]) "main" [] =
      outsidePrefixLines ++ ["Host tail"] ++ buildManagedBlock "main" [] :=
  upsert_preserves_outside_lines.2.2 outsidePrefixLines ["Host x"] ["Host tail"]
    "# BEGIN git-keys managed block - main" "# END git-keys managed block" "main" []
    (by decide) (by decide) (by decide) (by decide) (by decide) (by decide)

theorem uploadKeyModel_noToken (store : TokenStore)
    (addKey : String → String → Option String) (rot : KeyRotation) (pk svc : String)
    (hsvc : tokenServiceFor rot.platformType = some svc)
    (htok : resolveToken store svc rot.account = none) :
    uploadKeyModel store addKey rot pk = .error "no API token found" := by
  simp [uploadKeyModel, hsvc, htok]

theorem rotateKeyModel_noToken (cfg : Config) (env : RotateEnv) (rot : KeyRotation)
    (now : Nat) (svc : String)
    (hsvc : tokenServiceFor rot.platformType = some svc)
    (htok : resolveToken env.tokens svc rot.account = none) :
    (rotateKeyModel cfg env rot now).2.ok = false ∧
    (rotateKeyModel cfg env rot now).1 = cfg := by
  have hup : ∀ pk, uploadKeyModel env.tokens env.addKey rot pk =
      .error "no API token found" :=
    fun pk => uploadKeyModel_noToken env.tokens env.addKey rot pk svc hsvc htok
  unfold rotateKeyModel
  cases hg : env.generateOk with
  | false => simp
  | true =>
    cases hf : env.fingerprintRes with
    | none => simp
    | some fp =>
      cases hp : env.publicKeyRes with
      | none => simp
      | some pk => simp [hup pk]

/-- C5: the upload step resolves a token for the platform's keychain service
by trying the account-scoped entry first and falling back to the literal
account "default"; only when both are missing does the upload fail with "no
API token found", which aborts just that rotation pair — a sibling pair
still rotates in the same invocation, and the configuration is saved exactly
once, at the end, precisely when at least one pair succeeded. -/
theorem rotate_token_fallback_and_single_save :
    (∀ (store : TokenStore) (rot : KeyRotation) (pk t svc : String),
      tokenServiceFor rot.platformType = some svc →
      getTokenL store svc rot.account = some t →
      uploadKeyModel store (fun tok _ => some tok) rot pk = .ok t) ∧
    (∀ (store : TokenStore) (rot : KeyRotation) (pk t svc : String),
      tokenServiceFor rot.platformType = some svc →
      getTokenL store svc rot.account = none →
      getTokenL store svc "default" = some t →
      uploadKeyModel store (fun tok _ => some tok) rot pk = .ok t) ∧
    (∀ (store : TokenStore) (addKey : String → String → Option String)
        (rot : KeyRotation) (pk svc : String),
      tokenServiceFor rot.platformType = some svc →
      getTokenL store svc rot.account = none →
      getTokenL store svc "default" = none →
      uploadKeyModel store addKey rot pk = .error "no API token found") ∧
    (∀ (cfg : Config) (r1 r2 : KeyRotation) (e1 e2 : RotateEnv) (now : Nat)
        (svc : String),
      tokenServiceFor r1.platformType = some svc →
      resolveToken e1.tokens svc r1.account = none →
      (rotateKeyModel cfg e2 r2 now).2.ok = true →
      (runRotateProcess cfg [(r1, e1), (r2, e2)] now).failed = 1 ∧
      (runRotateProcess cfg [(r1, e1), (r2, e2)] now).successful = 1 ∧
      (runRotateProcess cfg [(r1, e1), (r2, e2)] now).savedConfigs =
        [(runRotateProcess cfg [(r1, e1), (r2, e2)] now).finalConfig] ∧
      (runRotateProcess cfg [(r1, e1), (r2, e2)] now).finalConfig =
        (rotateKeyModel cfg e2 r2 now).1) ∧
    (∀ (cfg : Config) (pairs : List (KeyRotation × RotateEnv)) (now : Nat),
      (runRotateProcess cfg pairs now).savedConfigs =
        if 0 < (runRotateProcess cfg pairs now).successful
        then [(runRotateProcess cfg pairs now).finalConfig] else []) := by
  refine ⟨?_, ?_, ?_, ?_, ?_⟩
  · intro store rot pk t svc hsvc ht
    simp [uploadKeyModel, resolveToken, hsvc, ht]
  · intro store rot pk t svc hsvc hn hd
    simp [uploadKeyModel, resolveToken, hsvc, hn, hd]
  · intro store addKey rot pk svc hsvc hn hd
    simp [uploadKeyModel, resolveToken, hsvc, hn, hd]
  · intro cfg r1 r2 e1 e2 now svc hsvc htok h2
    obtain ⟨hok1, hcfg1⟩ := rotateKeyModel_noToken cfg e1 r1 now svc hsvc htok
    unfold runRotateProcess
    simp only [List.foldl_cons, List.foldl_nil, hok1, hcfg1, Bool.false_eq_true,
      if_false, h2, if_true]
    simp [hcfg1, h2]
  · intro cfg pairs now
    rfl

/-- Witness for C5: a tokenless pair fails alone while its sibling with an
account-scoped token rotates, and the model is saved once. -/
theorem rotate_token_fallback_and_single_save_witness :
    (runRotateProcess twoActiveCfg
        [(noTokenRotation, noTokenEnv), (bobRotation, bobEnv)] 0).failed = 1 ∧
    (runRotateProcess twoActiveCfg
        [(noTokenRotation, noTokenEnv), (bobRotation, bobEnv)] 0).successful = 1 ∧
    (runRotateProcess twoActiveCfg
        [(noTokenRotation, noTokenEnv), (bobRotation, bobEnv)] 0).savedConfigs =
      [(runRotateProcess twoActiveCfg
          [(noTokenRotation, noTokenEnv), (bobRotation, bobEnv)] 0).finalConfig] ∧
    (runRotateProcess twoActiveCfg
        [(noTokenRotation, noTokenEnv), (bobRotation, bobEnv)] 0).finalConfig =
      (rotateKeyModel twoActiveCfg bobEnv bobRotation 0).1 :=
  rotate_token_fallback_and_single_save.2.2.2.1 twoActiveCfg noTokenRotation bobRotation
    noTokenEnv bobEnv 0 "git-keys-github" (by decide) (by decide) (by decide)

end GitKeys
